import Mathlib

/-!
Verification of the `robfigcronschedule` scheduling library.

The development shallowly embeds the library's Go source:

* a model of the parts of Go's `time` package the library uses
  (proleptic Gregorian calendar, `time.Date` normalization, `AddDate`,
  weekdays, wall-clock component accessors), with instants represented
  as unbounded integers counting nanoseconds since the Unix epoch in a
  fixed offset (the code projects every configured instant into the
  query instant's offset, so a single-offset model is faithful for the
  properties below);
* the `Schedule` aggregate with its operations `validate`, `Set`,
  `New`, `Next`, `incrementInterval` and `findNextAllowedDay`,
  translated branch by branch from `schedule.go` and `new.go`.

Hooks (`beforeNext`, `afterNext`) have the opaque Go type `func()` /
`func(*time.Time)`; they are modelled as optional values carrying the
one bit of behaviour the code inspects — whether the invocation
panics — with the panic routed through an `Except` value that the
`safe*` wrappers recover, mirroring `recover()` in the source.
-/

namespace Rcs

/-! ### Go `time` constants -/
def nsPerSec : Int := 1000000000

def nsPerMin : Int := 60 * nsPerSec

def nsPerHour : Int := 60 * nsPerMin

def nsPerDay : Int := 24 * nsPerHour

/-! ### Calendar: Go `time` package algorithms

Go converts between absolute day counts and civil dates with a cascade
of 400-year, 100-year, 4-year and 1-year cycles (`absDate`,
`daysSinceEpoch` in `src/time/time.go`).  Go performs the cascade on
unsigned day counts measured from an internal absolute epoch; here the
same cascade is run on `Int` with Euclidean (floor-like) division and
days counted from January 1 of year 1, which agrees with Go on the
whole representable range. -/
/-- Go `isLeap`. -/
def isLeap (y : Int) : Bool := y % 4 == 0 && (y % 100 != 0 || y % 400 == 0)

/-- Go's `daysBefore` table: days in a non-leap year before month `m+1`;
`daysBefore 0 = 0`, …, `daysBefore 12 = 365`. -/
def daysBefore (m : Int) : Int :=
  if m ≤ 0 then 0
  else if m = 1 then 31
  else if m = 2 then 59
  else if m = 3 then 90
  else if m = 4 then 120
  else if m = 5 then 151
  else if m = 6 then 181
  else if m = 7 then 212
  else if m = 8 then 243
  else if m = 9 then 273
  else if m = 10 then 304
  else if m = 11 then 334
  else 365

/-- Days from 0001-01-01 to `year`-01-01 (Go `daysSinceEpoch`, shifted to
the year-1 epoch). -/
def daysSinceYear1 (year : Int) : Int :=
  let y := year - 1
  146097 * (y / 400) + 36524 * (y % 400 / 100) +
    1461 * (y % 400 % 100 / 4) + 365 * (y % 400 % 100 % 4)

/-- Split an absolute day count (days since 0001-01-01) into year and
day-of-year (0-based), following Go's `absDate` cycle cascade including
the `n -= n >> 2` clamps for the final 100-year and 1-year cycles. -/
def absYearYday (d : Int) : Int × Int :=
  let d1 := d % 146097
  let n100 := d1 / 36524 - d1 / 36524 / 4
  let r100 := d1 - 36524 * n100
  let n4 := r100 / 1461
  let r4 := r100 % 1461
  let n1 := r4 / 365 - r4 / 365 / 4
  (400 * (d / 146097) + 100 * n100 + 4 * n4 + n1 + 1, r4 - 365 * n1)

/-- Month (1-based) and day-of-month from year and 0-based day-of-year
(Go `absDate` with `full = true`). -/
def monthDayOfYday (year yday : Int) : Int × Int :=
  if isLeap year && yday == 59 then (2, 29)
  else
    let day := if isLeap year && yday > 59 then yday - 1 else yday
    let est := day / 31
    let m0 := if daysBefore (est + 1) ≤ day then est + 1 else est
    (m0 + 1, day - daysBefore m0 + 1)

/-- Day computation of `time.Date` with the month already normalized to
1..12: days since 0001-01-01 of (`year`, `month`, `day`), `day` taken
linearly (out-of-range days normalize by construction). -/
def dateToAbsDaysN (year month day : Int) : Int :=
  daysSinceYear1 year + daysBefore (month - 1) +
    (if isLeap year ∧ 3 ≤ month then 1 else 0) + (day - 1)

/-- Go `time.Date`'s month normalization followed by the day computation. -/
def dateToAbsDays (year month day : Int) : Int :=
  dateToAbsDaysN (year + (month - 1) / 12) ((month - 1) % 12 + 1) day

/-! ### Instants and their components -/
/-- Absolute day count of an instant (days since 0001-01-01). -/
def absD (t : Int) : Int := t / nsPerDay + 719162

/-- Nanoseconds elapsed since the instant's midnight. -/
def clockNs (t : Int) : Int := t % nsPerDay

def timeYear (t : Int) : Int := (absYearYday (absD t)).1

def timeYday (t : Int) : Int := (absYearYday (absD t)).2

def timeMonth (t : Int) : Int := (monthDayOfYday (timeYear t) (timeYday t)).1

def timeDay (t : Int) : Int := (monthDayOfYday (timeYear t) (timeYday t)).2

def timeHour (t : Int) : Int := clockNs t / nsPerHour

def timeMin (t : Int) : Int := clockNs t % nsPerHour / nsPerMin

def timeSec (t : Int) : Int := clockNs t % nsPerMin / nsPerSec

def timeNsec (t : Int) : Int := t % nsPerSec

/-- Go `Weekday()`: 0 = Sunday; 1970-01-01 was a Thursday (= 4). -/
def timeWeekday (t : Int) : Int := (t / nsPerDay + 4) % 7

/-- Go `time.Date y mo d h mi s ns` in the fixed offset: out-of-range
fields normalize linearly, exactly as Go's `norm` cascade. -/
def mkTime (year month day hour minute sec nsec : Int) : Int :=
  (dateToAbsDays year month day - 719162) * nsPerDay +
    hour * nsPerHour + minute * nsPerMin + sec * nsPerSec + nsec

/-- Go `Time.AddDate`: re-dates the instant from its broken-down
components. -/
def addDate (t dy dm dd : Int) : Int :=
  mkTime (timeYear t + dy) (timeMonth t + dm) (timeDay t + dd)
    (timeHour t) (timeMin t) (timeSec t) (timeNsec t)

/-! ### The Schedule aggregate (`schedule.go`)

Hooks are optional values recording whether invoking them panics; the
weekday allow-list is the set of keys of the Go `map[time.Weekday]bool`
(the option constructor only ever stores `true` values); the interval
unit is a plain integer, as in Go, so the defensive `default` branch of
`incrementInterval` stays reachable. -/
/-- The Go zero `time.Time` (January 1, year 1, 00:00:00 UTC) in Unix
nanoseconds. -/
def goZeroTime : Int := -62135596800000000000

structure Schedule where
  startDate : Option Int
  startTime : Option Int
  endTime : Option Int
  allowedWeekdays : Option (Finset (Fin 7))
  enabled : Bool
  interval : Int
  intervalTimeUnit : Int
  nextRun : Int
  precision : Bool
  beforeNext : Option Bool
  afterNext : Option Bool
deriving DecidableEq

/-- The zero value `Schedule{}` of the Go struct. -/
def zeroSchedule : Schedule :=
  { startDate := none, startTime := none, endTime := none, allowedWeekdays := none,
    enabled := false, interval := 0, intervalTimeUnit := 0, nextRun := goZeroTime,
    precision := false, beforeNext := none, afterNext := none }

/-! The `IntervalTimeUnit` constants (`constant.go`). -/
def Second : Int := 0

def Minute : Int := 1

def Hour : Int := 2

def Day : Int := 3

def Week : Int := 4

def Month : Int := 5

def Year : Int := 6

inductive ScheduleError where
  | invalidInterval
  | invalidTimeWindow
  | noDayInWeekdayWindow
  | multiIntervalWithWeekdayWindow
deriving DecidableEq

/-- Function `incrementInterval` from `schedule.go`: dispatch on the unit, with
the defensive 5-minute default. -/
def incrementInterval (s : Schedule) (t : Int) : Int :=
  if s.intervalTimeUnit = Second then t + s.interval * nsPerSec
  else if s.intervalTimeUnit = Minute then t + s.interval * nsPerMin
  else if s.intervalTimeUnit = Hour then t + s.interval * nsPerHour
  else if s.intervalTimeUnit = Day then addDate t 0 0 s.interval
  else if s.intervalTimeUnit = Week then addDate t 0 0 (s.interval * 7)
  else if s.intervalTimeUnit = Month then addDate t 0 s.interval 0
  else if s.intervalTimeUnit = Year then addDate t s.interval 0 0
  else t + 5 * nsPerMin

/-- Seconds-of-day sum used by `validate`
(`Hour()*3600 + Minute()*60 + Second()`). -/
def secOfDay (u : Int) : Int := timeHour u * 3600 + timeMin u * 60 + timeSec u

/-- Weekday-filter part of `validate` (its final `if`/`else if` chain). -/
def validateWeekdays (s : Schedule) : Option ScheduleError :=
  match s.allowedWeekdays with
  | some w =>
    if w.card = 0 then some ScheduleError.noDayInWeekdayWindow
    else if s.intervalTimeUnit = Week ∨ s.intervalTimeUnit = Month ∨ s.intervalTimeUnit = Year
      then some ScheduleError.multiIntervalWithWeekdayWindow
      else none
  | none => none

/-- Function `validate` from `schedule.go`. -/
def validate (s : Schedule) : Option ScheduleError :=
  if s.interval < 1 then some ScheduleError.invalidInterval
  else
    match s.startTime, s.endTime with
    | some st, some et =>
      if secOfDay et ≤ secOfDay st then some ScheduleError.invalidTimeWindow
      else validateWeekdays s
    | _, _ => validateWeekdays s

def weekdayFin (t : Int) : Fin 7 :=
  ⟨(timeWeekday t).toNat, by dsimp only [timeWeekday, nsPerDay, nsPerHour, nsPerMin, nsPerSec]; omega⟩

/-- Function `isDayAllowed` from `schedule.go`. -/
def isDayAllowed (s : Schedule) (t : Int) : Bool :=
  match s.allowedWeekdays with
  | none => true
  | some w => decide (weekdayFin t ∈ w)

/-- One day-advance step of `findNextAllowedDay`'s loop. -/
def advanceDay (s : Schedule) (preserveTime : Bool) (c : Int) : Int :=
  match preserveTime, s.startTime with
  | true, some st =>
    mkTime (timeYear c) (timeMonth c) (timeDay c + 1)
      (timeHour st) (timeMin st) (timeSec st) (timeNsec st)
  | _, _ => c + 24 * nsPerHour

/-- The result adjustment applied to a matching day by
`findNextAllowedDay`. -/
def retimeDay (s : Schedule) (preserveTime : Bool) (c : Int) : Int :=
  match preserveTime, s.startTime with
  | true, some st =>
    mkTime (timeYear c) (timeMonth c) (timeDay c)
      (timeHour st) (timeMin st) (timeSec st) (timeNsec st)
  | _, _ => c

/-- The bounded scan of `findNextAllowedDay` (`for i := 0; i < 14; ...`),
`none` when the fuel runs out. -/
def findNextAllowedDayAux (s : Schedule) (preserveTime : Bool) :
    Nat → Int → Option Int
  | 0, _ => none
  | fuel + 1, current =>
    if isDayAllowed s current then some (retimeDay s preserveTime current)
    else findNextAllowedDayAux s preserveTime fuel (advanceDay s preserveTime current)

/-- Function `findNextAllowedDay` from `schedule.go`, including the defensive
fallback to the original instant after 14 iterations. -/
def findNextAllowedDay (s : Schedule) (start : Int) (preserveTime : Bool) : Int :=
  match s.allowedWeekdays with
  | none => start
  | some _ => (findNextAllowedDayAux s preserveTime 14 start).getD start

/-- The non-precision alignment loop
(`for next.Before(t) { next = s.incrementInterval(next) }`).  The Go
loop diverges when the increment fails to advance (impossible for a
validated schedule, whose interval is ≥ 1); here that case exits with
the current value so the function is total. -/
def alignUp (s : Schedule) (t next : Int) : Int :=
  if _h : next < t then
    if _h2 : next < incrementInterval s next then alignUp s t (incrementInterval s next)
    else next
  else next
termination_by (t - next).toNat
decreasing_by omega

/-- The local `startTime` of `Next`'s window branch:
`time.Date(t.Year(), t.Month(), t.Day(), u.Hour(), u.Minute(), u.Second(), u.Nanosecond(), loc)`. -/
def windowStart (u t : Int) : Int :=
  mkTime (timeYear t) (timeMonth t) (timeDay t)
    (timeHour u) (timeMin u) (timeSec u) (timeNsec u)

/-- The local `endTime` of `Next`'s window branch, defaulting to
23:59:59.999999999 when no end time is configured. -/
def windowEnd (s : Schedule) (t : Int) : Int :=
  match s.endTime with
  | some et => windowStart et t
  | none => mkTime (timeYear t) (timeMonth t) (timeDay t) 23 59 59 999999999

/-- Branch 5 of `Next` (daily time window active), given
`startTime = some st`. -/
def nextInWindow (s : Schedule) (t st : Int) : Int :=
  let todayStart := windowStart st t
  let todayEnd := windowEnd s t
  if ¬ isDayAllowed s t then findNextAllowedDay s (todayStart + 24 * nsPerHour) true
  else if s.precision then
    if t < todayStart then todayStart
    else if todayEnd < t then todayStart + 24 * nsPerHour
    else
      let next := incrementInterval s t
      if todayEnd < next then findNextAllowedDay s (todayStart + 24 * nsPerHour) true
      else next
  else
    let next := alignUp s t todayStart
    if timeDay next ≠ timeDay t then findNextAllowedDay s next false else next

/-- Branch 6 of `Next` (no time window). -/
def nextNoWindow (s : Schedule) (t : Int) : Int :=
  let next := incrementInterval s t
  if timeDay next ≠ timeDay t ∨ timeMonth next ≠ timeMonth t ∨ timeYear next ≠ timeYear t then
    findNextAllowedDay s next false
  else next

/-- Branches 5/6 of `Next`, after the start-date branch. -/
def nextAfter (s : Schedule) (t : Int) : Int :=
  match s.startTime with
  | some st => nextInWindow s t st
  | none => nextNoWindow s t

/-- Branches 4-6 of `Next`: the computed (uncached) next instant. -/
def nextCore (s : Schedule) (t : Int) : Int :=
  match s.startDate with
  | some sd =>
    if t < sd then
      match s.startTime with
      | some st =>
        mkTime (timeYear sd) (timeMonth sd) (timeDay sd)
          (timeHour st) (timeMin st) (timeSec st) (timeNsec st)
      | none => sd
    else nextAfter s t
  | none => nextAfter s t

/-- A hook invocation: `some true` models a hook body that panics. -/
def runHook (panics : Bool) : Except String Unit :=
  if panics then Except.error "hook fault" else Except.ok ()

/-- Method `safeBeforeNext`: the `recover()` wrapper turns a hook fault into a
logged warning and returns normally. -/
def safeBeforeNext (h : Option Bool) : Unit :=
  match h with
  | none => ()
  | some p =>
    match runHook p with
    | Except.ok _ => ()
    | Except.error _ => ()

/-- The hook invocation of `safeAfterNext`, with the same recovery. -/
def safeAfterNext (h : Option Bool) : Unit :=
  match h with
  | none => ()
  | some p =>
    match runHook p with
    | Except.ok _ => ()
    | Except.error _ => ()

/-- Method `Next` from `schedule.go`, returning the computed instant and the
post-call state (the deferred `safeAfterNext` unconditionally caches the
computed instant via `setNextRun`; the disabled and cached-override
branches return before that defer is installed). -/
def Next (s : Schedule) (t : Int) : Int × Schedule :=
  let _hb := safeBeforeNext s.beforeNext
  if !s.enabled then (t + 5 * nsPerMin, s)
  else if t < s.nextRun then (s.nextRun, s)
  else
    let next := nextCore s t
    let _ha := safeAfterNext s.afterNext
    (next, { s with nextRun := next })

/-- Option mutators (`ScheduleOption` in the options file). -/
abbrev ScheduleOption := Schedule → Schedule

def applyOptions (s : Schedule) (opts : List ScheduleOption) : Schedule :=
  opts.foldl (fun acc opt => opt acc) s

/-- Method `Set` from `schedule.go`: apply the options to the live state,
validate, and on failure restore the saved `original` snapshot.  The Go
code never assigns `original.precision`, so the snapshot's precision is
the zero value `false` and the rollback writes that value back. -/
def Set (s : Schedule) (opts : List ScheduleOption) : Option ScheduleError × Schedule :=
  let original : Schedule :=
    { zeroSchedule with
      startDate := s.startDate, startTime := s.startTime, endTime := s.endTime,
      allowedWeekdays := s.allowedWeekdays, enabled := s.enabled, interval := s.interval,
      intervalTimeUnit := s.intervalTimeUnit, nextRun := s.nextRun,
      beforeNext := s.beforeNext, afterNext := s.afterNext }
  let s1 := applyOptions s opts
  match validate s1 with
  | some err =>
    (some err,
      { s1 with
        startDate := original.startDate, startTime := original.startTime,
        endTime := original.endTime, allowedWeekdays := original.allowedWeekdays,
        enabled := original.enabled, interval := original.interval,
        intervalTimeUnit := original.intervalTimeUnit, precision := original.precision,
        beforeNext := original.beforeNext, afterNext := original.afterNext,
        nextRun := original.nextRun })
  | none => (none, s1)

/-- Constructor `New` from `new.go`: defaults set only `enabled` and `precision`. -/
def New (opts : List ScheduleOption) : Except ScheduleError Schedule :=
  let schedule : Schedule := { zeroSchedule with enabled := true, precision := true }
  let s1 := applyOptions schedule opts
  match validate s1 with
  | some err => Except.error err
  | none => Except.ok s1

/-! Option constructors (options file, current pointer-argument
variant: a `none` argument clears the field, an empty weekday list
clears the restriction). -/
def SetStartTime (t : Option Int) : ScheduleOption := fun s => { s with startTime := t }

def SetEndTime (t : Option Int) : ScheduleOption := fun s => { s with endTime := t }

def SetStartDate (t : Option Int) : ScheduleOption := fun s => { s with startDate := t }

def SetAllowedWeekdays (weekdays : List (Fin 7)) : ScheduleOption := fun s =>
  if weekdays.length < 1 then { s with allowedWeekdays := none }
  else { s with allowedWeekdays := some weekdays.toFinset }

def SetInterval (i : Int) : ScheduleOption := fun s => { s with interval := i }

def SetIntervalTimeUnit (u : Int) : ScheduleOption := fun s => { s with intervalTimeUnit := u }

def SetBeforeNextFunc (f : Option Bool) : ScheduleOption := fun s => { s with beforeNext := f }

def SetAfterNextFunc (f : Option Bool) : ScheduleOption := fun s => { s with afterNext := f }

def Enable : ScheduleOption := fun s => { s with enabled := true }

def Disable : ScheduleOption := fun s => { s with enabled := false }

def EnablePrecision : ScheduleOption := fun s => { s with precision := true }

def DisablePrecision : ScheduleOption := fun s => { s with precision := false }

-- business-hours schedule from the repo tests: every 2 seconds, window
-- 09:00-17:00 (startTime/endTime carried on 2000-01-01 UTC), precision on
def bizSched : Schedule :=
  { zeroSchedule with
    enabled := true, precision := true, interval := 2, intervalTimeUnit := Second,
    startTime := some (mkTime 2000 1 1 9 0 0 0), endTime := some (mkTime 2000 1 1 17 0 0 0) }

-- weekday filtering: add Mon..Fri, 2024-03-10 (Sunday) 10:00 → Monday 09:00
def bizSchedWd : Schedule :=
  { bizSched with allowedWeekdays := some {1, 2, 3, 4, 5} }

-- maintenance: every 1 Day at startTime 02:00 (2000-01-01 02:00 UTC);
-- Tuesday 2024-03-12 03:00 → Wednesday 2024-03-13 02:00
def maintSched : Schedule :=
  { zeroSchedule with
    enabled := true, precision := true, interval := 1, intervalTimeUnit := Day,
    startTime := some (mkTime 2000 1 1 2 0 0 0) }

/-- The validation cascade exactly as the specification words it:
four checks in order, first failure wins. -/
def specValidate (s : Schedule) : Option ScheduleError :=
  if s.interval < 1 then some ScheduleError.invalidInterval
  else if s.startTime.isSome = true ∧ s.endTime.isSome = true ∧
      secOfDay (s.startTime.getD 0) ≥ secOfDay (s.endTime.getD 0) then
    some ScheduleError.invalidTimeWindow
  else if s.allowedWeekdays.isSome = true ∧ (s.allowedWeekdays.getD ∅).card = 0 then
    some ScheduleError.noDayInWeekdayWindow
  else if s.allowedWeekdays.isSome = true ∧ (s.allowedWeekdays.getD ∅).card ≠ 0 ∧
      (s.intervalTimeUnit = Week ∨ s.intervalTimeUnit = Month ∨ s.intervalTimeUnit = Year) then
    some ScheduleError.multiIntervalWithWeekdayWindow
  else none

/-- A valid schedule with precision enabled, used to exhibit the `Set`
rollback defect. -/
def precisionSched : Schedule :=
  { zeroSchedule with enabled := true, precision := true, interval := 5 }

/-- Valid schedule whose start date lies ahead of the query but whose
start time-of-day has already passed on the query day. -/
def startDateSched : Schedule :=
  { zeroSchedule with
    enabled := true, precision := true, interval := 5, intervalTimeUnit := Second,
    startDate := some (mkTime 2025 3 15 14 30 0 0),
    startTime := some (mkTime 2000 1 1 2 0 0 0) }

/-- The business-hours schedule with precision off. -/
def npSched : Schedule := { bizSched with precision := false }

end Rcs

namespace Rcs

example : absYearYday 719162 = (1970, 0) := by decide

example : (timeYear 0, timeMonth 0, timeDay 0) = (1970, 1, 1) := by decide

example : timeWeekday 0 = 4 := by decide

theorem absYearYday_decomp (d : Int) :
    ∃ n400 n100 n4 n1 : Int,
      0 ≤ n100 ∧ n100 ≤ 3 ∧ 0 ≤ n4 ∧ n4 ≤ 24 ∧ 0 ≤ n1 ∧ n1 ≤ 3 ∧
      (absYearYday d).1 = 400 * n400 + 100 * n100 + 4 * n4 + n1 + 1 ∧
      (absYearYday d).2 = d - (146097 * n400 + 36524 * n100 + 1461 * n4 + 365 * n1) ∧
      0 ≤ (absYearYday d).2 ∧ (absYearYday d).2 ≤ 365 ∧
      ((absYearYday d).2 = 365 → n1 = 3 ∧ (n4 = 24 → n100 = 3)) := by
  refine ⟨d / 146097,
    d % 146097 / 36524 - d % 146097 / 36524 / 4,
    (d % 146097 - 36524 * (d % 146097 / 36524 - d % 146097 / 36524 / 4)) / 1461,
    (d % 146097 - 36524 * (d % 146097 / 36524 - d % 146097 / 36524 / 4)) % 1461 / 365 -
      (d % 146097 - 36524 * (d % 146097 / 36524 - d % 146097 / 36524 / 4)) % 1461 / 365 / 4,
    ?_⟩
  dsimp only [absYearYday]
  omega

theorem daysSinceYear1_reassemble (n400 n100 n4 n1 : Int)
    (h100 : 0 ≤ n100 ∧ n100 ≤ 3) (h4 : 0 ≤ n4 ∧ n4 ≤ 24) (h1 : 0 ≤ n1 ∧ n1 ≤ 3) :
    daysSinceYear1 (400 * n400 + 100 * n100 + 4 * n4 + n1 + 1) =
      146097 * n400 + 36524 * n100 + 1461 * n4 + 365 * n1 := by
  dsimp only [daysSinceYear1]
  omega

theorem isLeap_of_cycles (n400 n100 n4 n1 : Int)
    (_h100 : 0 ≤ n100 ∧ n100 ≤ 3) (h4 : 0 ≤ n4 ∧ n4 ≤ 24) (h1 : n1 = 3)
    (h24 : n4 = 24 → n100 = 3) :
    isLeap (400 * n400 + 100 * n100 + 4 * n4 + n1 + 1) = true := by
  dsimp only [isLeap]
  simp only [Bool.and_eq_true, beq_iff_eq, Bool.or_eq_true, bne_iff_ne, ne_eq]
  omega

/-- Round-trip at the year level plus range facts for the day-of-year. -/
theorem absYearYday_spec (d : Int) :
    daysSinceYear1 (absYearYday d).1 + (absYearYday d).2 = d ∧
    0 ≤ (absYearYday d).2 ∧ (absYearYday d).2 ≤ 365 ∧
    ((absYearYday d).2 ≤ 364 ∨ isLeap (absYearYday d).1 = true) := by
  obtain ⟨n400, n100, n4, n1, hb100, hb100u, hb4, hb4u, hb1, hb1u, hy, hyd, hyd0, hyd365, hleap⟩ :=
    absYearYday_decomp d
  have hre := daysSinceYear1_reassemble n400 n100 n4 n1 ⟨hb100, hb100u⟩ ⟨hb4, hb4u⟩ ⟨hb1, hb1u⟩
  refine ⟨by rw [hy, hre]; omega, hyd0, hyd365, ?_⟩
  by_cases h : (absYearYday d).2 = 365
  · refine Or.inr ?_
    rw [hy]
    exact isLeap_of_cycles n400 n100 n4 n1 ⟨hb100, hb100u⟩ ⟨hb4, hb4u⟩ (hleap h).1 (hleap h).2
  · exact Or.inl (by omega)

/-- Go's `day/31` month estimate, with its correction step, brackets the
day-of-year between the cumulative-days table entries. -/
theorem monthEst_core (day : Int) (h0 : 0 ≤ day) (h1 : day ≤ 364) :
    0 ≤ (if daysBefore (day / 31 + 1) ≤ day then day / 31 + 1 else day / 31) ∧
    (if daysBefore (day / 31 + 1) ≤ day then day / 31 + 1 else day / 31) ≤ 11 ∧
    daysBefore (if daysBefore (day / 31 + 1) ≤ day then day / 31 + 1 else day / 31) ≤ day ∧
    day - daysBefore (if daysBefore (day / 31 + 1) ≤ day then day / 31 + 1 else day / 31) ≤ 30 ∧
    (59 ≤ day → 2 ≤ (if daysBefore (day / 31 + 1) ≤ day then day / 31 + 1 else day / 31)) ∧
    (day ≤ 58 → (if daysBefore (day / 31 + 1) ≤ day then day / 31 + 1 else day / 31) ≤ 1) ∧
    daysBefore (if daysBefore (day / 31 + 1) ≤ day then day / 31 + 1 else day / 31) +
      (day - daysBefore (if daysBefore (day / 31 + 1) ≤ day then day / 31 + 1 else day / 31)) = day := by
  have hb : 0 ≤ day / 31 ∧ day / 31 ≤ 11 := by omega
  set e := day / 31 with he
  obtain ⟨hb0, hb1⟩ := hb
  interval_cases e <;> simp only [daysBefore] <;> norm_num <;> omega

theorem monthEst_named (day : Int) (h0 : 0 ≤ day) (h1 : day ≤ 364) :
    ∃ m0 : Int,
      (if daysBefore (day / 31 + 1) ≤ day then day / 31 + 1 else day / 31) = m0 ∧
      0 ≤ m0 ∧ m0 ≤ 11 ∧ daysBefore m0 ≤ day ∧ day - daysBefore m0 ≤ 30 ∧
      (59 ≤ day → 2 ≤ m0) ∧ (day ≤ 58 → m0 ≤ 1) := by
  refine ⟨if daysBefore (day / 31 + 1) ≤ day then day / 31 + 1 else day / 31, rfl, ?_⟩
  have hc := monthEst_core day h0 h1
  tauto

/-- Correctness of the month/day split: the reconstructed cumulative day
count equals the day-of-year, with components in range. -/
theorem monthDayOfYday_spec (y yd : Int) (h0 : 0 ≤ yd)
    (h1 : yd ≤ 364 ∨ (yd = 365 ∧ isLeap y = true)) :
    1 ≤ (monthDayOfYday y yd).1 ∧ (monthDayOfYday y yd).1 ≤ 12 ∧
    1 ≤ (monthDayOfYday y yd).2 ∧ (monthDayOfYday y yd).2 ≤ 31 ∧
    daysBefore ((monthDayOfYday y yd).1 - 1) +
      (if isLeap y = true ∧ 3 ≤ (monthDayOfYday y yd).1 then 1 else 0) +
      ((monthDayOfYday y yd).2 - 1) = yd := by
  by_cases hl : isLeap y = true
  · by_cases h59 : yd = 59
    · subst h59
      simp only [monthDayOfYday, hl, Bool.true_and, beq_self_eq_true, if_true, daysBefore]
      norm_num
    · rw [monthDayOfYday, if_neg (by simp [hl, h59])]
      by_cases hgt : yd > 59
      · rw [if_pos (by simp [hl, hgt])]
        dsimp only
        obtain ⟨m0, hm0, hb0, hb1, hlo, hhi, h2m, h1m⟩ := monthEst_named (yd - 1) (by omega) (by omega)
        rw [hm0]
        simp only [add_sub_cancel_right]
        rw [if_pos ⟨hl, by have := h2m (by omega); omega⟩]
        omega
      · rw [if_neg (by simp [hl, hgt])]
        dsimp only
        obtain ⟨m0, hm0, hb0, hb1, hlo, hhi, h2m, h1m⟩ := monthEst_named yd (by omega) (by omega)
        rw [hm0]
        simp only [add_sub_cancel_right]
        rw [if_neg (by have := h1m (by omega); omega)]
        omega
  · have hyd364 : yd ≤ 364 := by tauto
    rw [monthDayOfYday, if_neg (by simp [hl]), if_neg (by simp [hl])]
    dsimp only
    obtain ⟨m0, hm0, hb0, hb1, hlo, hhi, h2m, h1m⟩ := monthEst_named yd h0 hyd364
    rw [hm0]
    simp only [add_sub_cancel_right]
    rw [if_neg (by tauto)]
    omega

theorem dateToAbsDays_eq_N (y m d : Int) (h1 : 1 ≤ m) (h2 : m ≤ 12) :
    dateToAbsDays y m d = dateToAbsDaysN y m d := by
  have ha : y + (m - 1) / 12 = y := by omega
  have hb : (m - 1) % 12 + 1 = m := by omega
  rw [dateToAbsDays, ha, hb]

/-- Full round-trip: re-dating an absolute day count from its computed
year, month and day components gives the same day count. -/
theorem dateToAbsDays_roundtrip (d : Int) :
    dateToAbsDays (absYearYday d).1
      (monthDayOfYday (absYearYday d).1 (absYearYday d).2).1
      (monthDayOfYday (absYearYday d).1 (absYearYday d).2).2 = d := by
  obtain ⟨hsum, hyd0, hyd365, hleapalt⟩ := absYearYday_spec d
  have hmd := monthDayOfYday_spec (absYearYday d).1 (absYearYday d).2 hyd0
    (by rcases hleapalt with h | h
        · exact Or.inl h
        · by_cases h364 : (absYearYday d).2 ≤ 364
          · exact Or.inl h364
          · exact Or.inr ⟨by omega, h⟩)
  obtain ⟨hm1, hm12, hd1, hd31, heq⟩ := hmd
  rw [dateToAbsDays_eq_N _ _ _ hm1 hm12, dateToAbsDaysN]
  omega

theorem timeMonth_range (t : Int) : 1 ≤ timeMonth t ∧ timeMonth t ≤ 12 := by
  have h := absYearYday_spec (absD t)
  have hmd := monthDayOfYday_spec (absYearYday (absD t)).1 (absYearYday (absD t)).2 h.2.1
    (by rcases h.2.2.2 with hh | hh
        · exact Or.inl hh
        · by_cases h364 : (absYearYday (absD t)).2 ≤ 364
          · exact Or.inl h364
          · exact Or.inr ⟨by omega, hh⟩)
  exact ⟨hmd.1, hmd.2.1⟩

theorem timeDay_range (t : Int) : 1 ≤ timeDay t ∧ timeDay t ≤ 31 := by
  have h := absYearYday_spec (absD t)
  have hmd := monthDayOfYday_spec (absYearYday (absD t)).1 (absYearYday (absD t)).2 h.2.1
    (by rcases h.2.2.2 with hh | hh
        · exact Or.inl hh
        · by_cases h364 : (absYearYday (absD t)).2 ≤ 364
          · exact Or.inl h364
          · exact Or.inr ⟨by omega, hh⟩)
  exact ⟨hmd.2.2.1, hmd.2.2.2.1⟩

/-- The date components of an instant re-date to its absolute day count. -/
theorem components_roundtrip (t : Int) :
    dateToAbsDays (timeYear t) (timeMonth t) (timeDay t) = absD t :=
  dateToAbsDays_roundtrip (absD t)

theorem clock_recompose (u : Int) :
    timeHour u * nsPerHour + timeMin u * nsPerMin + timeSec u * nsPerSec + timeNsec u =
      clockNs u := by
  dsimp only [timeHour, timeMin, timeSec, timeNsec, clockNs, nsPerHour, nsPerMin, nsPerSec,
    nsPerDay]
  omega

/-- Applying `mkTime` to an instant's own date components, with arbitrary clock
fields, lands on that instant's day. -/
theorem mkTime_on_day (t h mi s ns : Int) :
    mkTime (timeYear t) (timeMonth t) (timeDay t) h mi s ns =
      t / nsPerDay * nsPerDay + (h * nsPerHour + mi * nsPerMin + s * nsPerSec + ns) := by
  rw [mkTime, components_roundtrip, absD]
  ring

/-- Rebuilding an instant from all its components is the identity. -/
theorem mkTime_components (t : Int) :
    mkTime (timeYear t) (timeMonth t) (timeDay t) (timeHour t) (timeMin t) (timeSec t)
      (timeNsec t) = t := by
  rw [mkTime_on_day, clock_recompose]
  dsimp only [clockNs, nsPerDay, nsPerHour, nsPerMin, nsPerSec]
  omega

theorem yearLen (y : Int) :
    daysSinceYear1 (y + 1) = daysSinceYear1 y + 365 + (if isLeap y = true then 1 else 0) := by
  dsimp only [daysSinceYear1, isLeap]
  simp only [Bool.and_eq_true, beq_iff_eq, Bool.or_eq_true, bne_iff_ne, ne_eq]
  split <;> omega

theorem dateToAbsDays_mIdx (y m d : Int) :
    dateToAbsDays y m d =
      dateToAbsDaysN ((12 * y + m - 1) / 12) ((12 * y + m - 1) % 12 + 1) d := by
  have ha : (12 * y + m - 1) / 12 = y + (m - 1) / 12 := by omega
  have hb : (12 * y + m - 1) % 12 = (m - 1) % 12 := by omega
  rw [dateToAbsDays, ha, hb]

/-- Stepping the linear month index forward strictly increases the
re-dated day count (for day-of-month values in range). -/
theorem monthsStep (k d : Int) (_hd1 : 1 ≤ d) (_hd31 : d ≤ 31) :
    dateToAbsDaysN (k / 12) (k % 12 + 1) d <
      dateToAbsDaysN ((k + 1) / 12) ((k + 1) % 12 + 1) d := by
  by_cases hr : k % 12 = 11
  · have ha : (k + 1) / 12 = k / 12 + 1 := by omega
    have hb : (k + 1) % 12 = 0 := by omega
    rw [ha, hb, hr]
    dsimp only [dateToAbsDaysN]
    rw [yearLen]
    norm_num [daysBefore]
  · have ha : (k + 1) / 12 = k / 12 := by omega
    have hb : (k + 1) % 12 = k % 12 + 1 := by omega
    rw [ha, hb]
    dsimp only [dateToAbsDaysN]
    have hrb : 0 ≤ k % 12 ∧ k % 12 ≤ 10 := by omega
    set r := k % 12 with hrdef
    obtain ⟨hr0, hr1⟩ := hrb
    interval_cases r <;> (norm_num [daysBefore]; try (split_ifs <;> omega))

theorem monthsAdd_lt_nat (d : Int) (hd1 : 1 ≤ d) (hd31 : d ≤ 31) (k : Int) :
    ∀ p : Nat, dateToAbsDaysN (k / 12) (k % 12 + 1) d <
      dateToAbsDaysN ((k + 1 + p) / 12) ((k + 1 + p) % 12 + 1) d := by
  intro p
  induction p with
  | zero => simpa using monthsStep k d hd1 hd31
  | succ q ih =>
    have hstep := monthsStep (k + 1 + q) d hd1 hd31
    have harg : k + 1 + (q : Int) + 1 = k + 1 + ((q : Nat) + 1 : Nat) := by push_cast; ring
    rw [harg] at hstep
    exact lt_trans ih hstep

theorem monthsAdd_lt (d : Int) (hd1 : 1 ≤ d) (hd31 : d ≤ 31) (k : Int) :
    ∀ n : Int, 1 ≤ n →
      dateToAbsDaysN (k / 12) (k % 12 + 1) d <
        dateToAbsDaysN ((k + n) / 12) ((k + n) % 12 + 1) d := by
  intro n hn
  have h := monthsAdd_lt_nat d hd1 hd31 k (n - 1).toNat
  rw [show k + 1 + ((n - 1).toNat : Int) = k + n by omega] at h
  exact h

theorem mkTime_eq (y m d h mi s ns : Int) :
    mkTime y m d h mi s ns = (dateToAbsDays y m d - 719162) * 86400000000000 +
      h * 3600000000000 + mi * 60000000000 + s * 1000000000 + ns := by
  dsimp only [mkTime, nsPerDay, nsPerHour, nsPerMin, nsPerSec]
  ring

theorem t_decomp (t : Int) :
    t = (absD t - 719162) * 86400000000000 + clockNs t ∧
      0 ≤ clockNs t ∧ clockNs t < 86400000000000 := by
  dsimp only [absD, clockNs, nsPerDay, nsPerHour, nsPerMin, nsPerSec]
  omega

theorem clock_recompose_lit (u : Int) :
    timeHour u * 3600000000000 + timeMin u * 60000000000 + timeSec u * 1000000000 +
      timeNsec u = clockNs u := by
  dsimp only [timeHour, timeMin, timeSec, timeNsec, clockNs, nsPerHour, nsPerMin, nsPerSec,
    nsPerDay]
  omega

/-- Go `AddDate` by days is plain day arithmetic. -/
theorem addDate_days (t n : Int) : addDate t 0 0 n = t + n * 86400000000000 := by
  rw [addDate, add_zero, add_zero, mkTime_eq]
  have hlin : dateToAbsDays (timeYear t) (timeMonth t) (timeDay t + n) =
      dateToAbsDays (timeYear t) (timeMonth t) (timeDay t) + n := by
    dsimp only [dateToAbsDays, dateToAbsDaysN]
    ring
  rw [hlin, components_roundtrip]
  have h1 := t_decomp t
  have h2 := clock_recompose_lit t
  omega

/-- Go `AddDate` by a positive number of months strictly advances the instant. -/
theorem addDate_months_pos (t n : Int) (hn : 1 ≤ n) : t < addDate t 0 n 0 := by
  rw [addDate, add_zero, add_zero, mkTime_eq]
  have hidx := dateToAbsDays_mIdx (timeYear t) (timeMonth t) (timeDay t)
  have hidx2 := dateToAbsDays_mIdx (timeYear t) (timeMonth t + n) (timeDay t)
  have hd := timeDay_range t
  have hlt := monthsAdd_lt (timeDay t) hd.1 hd.2 (12 * timeYear t + timeMonth t - 1) n hn
  have hcr := components_roundtrip t
  have h1 := t_decomp t
  have h2 := clock_recompose_lit t
  rw [show 12 * timeYear t + (timeMonth t + n) - 1 = 12 * timeYear t + timeMonth t - 1 + n
    by ring] at hidx2
  omega

/-- Go `AddDate` by a positive number of years strictly advances the instant. -/
theorem addDate_years_pos (t n : Int) (hn : 1 ≤ n) : t < addDate t n 0 0 := by
  rw [addDate, add_zero, add_zero, mkTime_eq]
  have hidx := dateToAbsDays_mIdx (timeYear t) (timeMonth t) (timeDay t)
  have hidx2 := dateToAbsDays_mIdx (timeYear t + n) (timeMonth t) (timeDay t)
  have hd := timeDay_range t
  have hlt := monthsAdd_lt (timeDay t) hd.1 hd.2 (12 * timeYear t + timeMonth t - 1) (12 * n)
    (by omega)
  have hcr := components_roundtrip t
  have h1 := t_decomp t
  have h2 := clock_recompose_lit t
  rw [show 12 * (timeYear t + n) + timeMonth t - 1 = 12 * timeYear t + timeMonth t - 1 + 12 * n
    by ring] at hidx2
  omega

-- Monday 2024-03-11 16:59:59 UTC → Tuesday 2024-03-12 09:00:00 UTC
example : (Next bizSched 1710176399000000000).1 = 1710234000000000000 := by decide

-- Monday 2024-03-11 10:30:00 UTC → 10:30:02
example : (Next bizSched 1710153000000000000).1 = 1710153002000000000 := by decide

example : (Next bizSchedWd 1710064800000000000).1 = 1710147600000000000 := by decide

example : (Next maintSched 1710212400000000000).1 = 1710295200000000000 := by decide

-- disabled: returns t + 5 minutes, state unchanged
example : Next { zeroSchedule with enabled := false } 12345 =
    (12345 + 300000000000, { zeroSchedule with enabled := false }) := by decide

-- validate examples
example : validate zeroSchedule = some ScheduleError.invalidInterval := by decide

example : validate bizSched = none := by decide

example : New [] = Except.error ScheduleError.invalidInterval := rfl

/-- C3: a disabled schedule yields `now + 5 minutes` and the whole state
(including the cached `nextRun`) is untouched: the disabled branch
returns before the caching defer is installed. -/
theorem disabled_next (s : Schedule) (t : Int) (hd : s.enabled = false) :
    Next s t = (t + 5 * nsPerMin, s) := by
  simp [Next, hd]

theorem disabled_next_witness :
    ({ zeroSchedule with interval := 7, precision := true } : Schedule).enabled = false ∧
      Next { zeroSchedule with interval := 7, precision := true } 123456789 =
        (123456789 + 5 * nsPerMin, { zeroSchedule with interval := 7, precision := true }) :=
  ⟨by decide, disabled_next { zeroSchedule with interval := 7, precision := true } 123456789
    (by decide)⟩

/-- C4: a cached `nextRun` strictly after the query instant is returned
verbatim and the state is untouched: the cache branch returns before any
recomputation or caching. -/
theorem cached_next (s : Schedule) (t : Int) (he : s.enabled = true)
    (hc : t < s.nextRun) : Next s t = (s.nextRun, s) := by
  simp [Next, he, hc]

theorem cached_next_witness :
    ({ zeroSchedule with enabled := true, interval := 1, nextRun := 5000 } : Schedule).enabled
        = true ∧
      (1000 : Int) < ({ zeroSchedule with enabled := true, interval := 1, nextRun := 5000 } :
        Schedule).nextRun ∧
      Next { zeroSchedule with enabled := true, interval := 1, nextRun := 5000 } 1000 =
        (5000, { zeroSchedule with enabled := true, interval := 1, nextRun := 5000 }) :=
  ⟨by decide, by decide,
    cached_next { zeroSchedule with enabled := true, interval := 1, nextRun := 5000 } 1000
      (by decide) (by decide)⟩

theorem applyOptions_interval (opts : List ScheduleOption)
    (hop : ∀ o ∈ opts, ∀ x : Schedule, (o x).interval = x.interval) :
    ∀ s : Schedule, (applyOptions s opts).interval = s.interval := by
  induction opts with
  | nil => intro s; rfl
  | cons o rest ih =>
    intro s
    have h1 : ∀ o2 ∈ rest, ∀ x : Schedule, (o2 x).interval = x.interval := by
      intro o2 h2 x
      exact hop o2 (List.mem_cons_of_mem o h2) x
    calc (applyOptions (o s) rest).interval = (o s).interval := ih h1 (o s)
      _ = s.interval := hop o (List.mem_cons_self o rest) s

/-- C10: `New` with no options, or any options that never touch the
interval, leaves the default interval 0, which the first validation
check rejects, so no schedule is constructed. -/
theorem new_default_invalid (opts : List ScheduleOption)
    (hop : ∀ o ∈ opts, ∀ x : Schedule, (o x).interval = x.interval) :
    New opts = Except.error ScheduleError.invalidInterval := by
  have h := applyOptions_interval opts hop { zeroSchedule with enabled := true, precision := true }
  have hv : validate (applyOptions { zeroSchedule with enabled := true, precision := true } opts) =
      some ScheduleError.invalidInterval := by
    simp only [validate]
    rw [if_pos (by rw [h]; decide)]
  simp only [New, hv]

theorem new_default_invalid_witness :
    New [] = Except.error ScheduleError.invalidInterval ∧
      New [Disable, EnablePrecision] = Except.error ScheduleError.invalidInterval :=
  ⟨new_default_invalid [] (by intro o ho x; cases ho),
    new_default_invalid [Disable, EnablePrecision]
      (by
        intro o ho x
        rcases List.mem_cons.mp ho with h | h
        · subst h; rfl
        · rcases List.mem_cons.mp h with h2 | h2
          · subst h2; rfl
          · cases h2)⟩

/-- C5: `validate` implements the specified cascade (it is a pure
function of the candidate: in this embedding it cannot mutate its
argument). -/
theorem validate_eq_specValidate (s : Schedule) : validate s = specValidate s := by
  rcases hst : s.startTime with _ | st <;> rcases het : s.endTime with _ | et <;>
    rcases hw : s.allowedWeekdays with _ | w <;>
      simp [validate, specValidate, validateWeekdays, hst, het, hw] <;>
        split_ifs <;> simp_all

/-- C1 (failing input): `Set` with an invalid interval returns the
validation error, restores every field except `precision`, which is
overwritten with the snapshot's zero value `false` — the Go code never
saves `original.precision`. -/
theorem set_rollback_precision_bug :
    validate precisionSched = none ∧ precisionSched.precision = true ∧
      Set precisionSched [SetInterval 0] =
        (some ScheduleError.invalidInterval, { precisionSched with precision := false }) := by
  decide

theorem incrementInterval_congr (a b : Schedule) (hI : a.interval = b.interval)
    (hU : a.intervalTimeUnit = b.intervalTimeUnit) (t : Int) :
    incrementInterval a t = incrementInterval b t := by
  unfold incrementInterval
  rw [hI, hU]

theorem isDayAllowed_congr (a b : Schedule) (hAW : a.allowedWeekdays = b.allowedWeekdays)
    (t : Int) : isDayAllowed a t = isDayAllowed b t := by
  unfold isDayAllowed
  rw [hAW]

theorem advanceDay_congr (a b : Schedule) (hST : a.startTime = b.startTime) (pt : Bool)
    (c : Int) : advanceDay a pt c = advanceDay b pt c := by
  unfold advanceDay
  rw [hST]

theorem retimeDay_congr (a b : Schedule) (hST : a.startTime = b.startTime) (pt : Bool)
    (c : Int) : retimeDay a pt c = retimeDay b pt c := by
  unfold retimeDay
  rw [hST]

theorem findAux_congr (a b : Schedule) (hAW : a.allowedWeekdays = b.allowedWeekdays)
    (hST : a.startTime = b.startTime) (pt : Bool) :
    ∀ fuel c, findNextAllowedDayAux a pt fuel c = findNextAllowedDayAux b pt fuel c := by
  intro fuel
  induction fuel with
  | zero => intro c; rfl
  | succ n ih =>
    intro c
    rw [findNextAllowedDayAux, findNextAllowedDayAux, isDayAllowed_congr a b hAW,
      retimeDay_congr a b hST, advanceDay_congr a b hST, ih]

theorem find_congr (a b : Schedule) (hAW : a.allowedWeekdays = b.allowedWeekdays)
    (hST : a.startTime = b.startTime) (start : Int) (pt : Bool) :
    findNextAllowedDay a start pt = findNextAllowedDay b start pt := by
  unfold findNextAllowedDay
  rw [hAW]
  cases b.allowedWeekdays with
  | none => rfl
  | some w => rw [findAux_congr a b hAW hST pt 14 start]

theorem alignUp_congr (a b : Schedule) (hI : a.interval = b.interval)
    (hU : a.intervalTimeUnit = b.intervalTimeUnit) (t n : Int) :
    alignUp a t n = alignUp b t n := by
  have H : ∀ k : Nat, ∀ m : Int, t - m ≤ k → alignUp a t m = alignUp b t m := by
    intro k
    induction k with
    | zero =>
      intro m hm
      conv_lhs => rw [alignUp.eq_def]
      conv_rhs => rw [alignUp.eq_def]
      rw [incrementInterval_congr a b hI hU]
      split_ifs with h1 h2
      · exact absurd h1 (by omega)
      · rfl
      · rfl
    | succ k ih =>
      intro m hm
      conv_lhs => rw [alignUp.eq_def]
      conv_rhs => rw [alignUp.eq_def]
      rw [incrementInterval_congr a b hI hU]
      split_ifs with h1 h2
      · exact ih (incrementInterval b m) (by omega)
      · rfl
      · rfl
  exact H (t - n).toNat n (by omega)

theorem windowEnd_congr (a b : Schedule) (hET : a.endTime = b.endTime) (t : Int) :
    windowEnd a t = windowEnd b t := by
  unfold windowEnd
  rw [hET]

theorem nextInWindow_congr (a b : Schedule) (hET : a.endTime = b.endTime)
    (hAW : a.allowedWeekdays = b.allowedWeekdays) (hP : a.precision = b.precision)
    (hI : a.interval = b.interval) (hU : a.intervalTimeUnit = b.intervalTimeUnit)
    (hST : a.startTime = b.startTime) (t st : Int) :
    nextInWindow a t st = nextInWindow b t st := by
  unfold nextInWindow
  dsimp only
  rw [windowEnd_congr a b hET, isDayAllowed_congr a b hAW, hP,
    incrementInterval_congr a b hI hU, alignUp_congr a b hI hU,
    find_congr a b hAW hST (windowStart st t + 24 * nsPerHour) true,
    find_congr a b hAW hST (alignUp b t (windowStart st t)) false]

theorem nextNoWindow_congr (a b : Schedule) (hAW : a.allowedWeekdays = b.allowedWeekdays)
    (hI : a.interval = b.interval) (hU : a.intervalTimeUnit = b.intervalTimeUnit)
    (hST : a.startTime = b.startTime) (t : Int) :
    nextNoWindow a t = nextNoWindow b t := by
  unfold nextNoWindow
  dsimp only
  rw [incrementInterval_congr a b hI hU,
    find_congr a b hAW hST (incrementInterval b t) false]

theorem nextCore_congr (a b : Schedule) (hSD : a.startDate = b.startDate)
    (hST : a.startTime = b.startTime) (hET : a.endTime = b.endTime)
    (hAW : a.allowedWeekdays = b.allowedWeekdays) (hP : a.precision = b.precision)
    (hI : a.interval = b.interval) (hU : a.intervalTimeUnit = b.intervalTimeUnit) (t : Int) :
    nextCore a t = nextCore b t := by
  have hafter : nextAfter a t = nextAfter b t := by
    unfold nextAfter
    rw [hST]
    cases b.startTime with
    | none => exact nextNoWindow_congr a b hAW hI hU hST t
    | some st => exact nextInWindow_congr a b hET hAW hP hI hU hST t st
  unfold nextCore
  rw [hSD, hST]
  cases b.startDate with
  | none => exact hafter
  | some sd =>
    dsimp only
    by_cases hlt : t < sd
    · rw [if_pos hlt, if_pos hlt]
    · rw [if_neg hlt, if_neg hlt]
      exact hafter

/-- C9: hook faults are contained — `safeBeforeNext`/`safeAfterNext`
recover any hook fault (a `runHook` error is swallowed and never leaves
`Next`), and the instant `Next` returns does not depend on the hooks'
presence or on whether they panic. -/
theorem next_fst (s : Schedule) (t : Int) :
    (Next s t).1 =
      if !s.enabled then t + 5 * nsPerMin
      else if t < s.nextRun then s.nextRun
      else nextCore s t := by
  unfold Next
  split_ifs <;> rfl

set_option maxHeartbeats 1000000 in

theorem next_hook_fault_contained (s : Schedule) (t : Int) (hb ha : Option Bool) :
    (Next { s with beforeNext := hb, afterNext := ha } t).1 =
      (Next { s with beforeNext := none, afterNext := none } t).1 := by
  have hc := nextCore_congr { s with beforeNext := hb, afterNext := ha }
    { s with beforeNext := none, afterNext := none } rfl rfl rfl rfl rfl rfl rfl t
  have h1 := next_fst { s with beforeNext := hb, afterNext := ha } t
  have h2 := next_fst { s with beforeNext := none, afterNext := none } t
  rw [hc] at h1
  rw [show ({ s with beforeNext := hb, afterNext := ha } : Schedule).enabled = s.enabled
      from rfl,
    show ({ s with beforeNext := hb, afterNext := ha } : Schedule).nextRun = s.nextRun
      from rfl] at h1
  rw [show ({ s with beforeNext := none, afterNext := none } : Schedule).enabled = s.enabled
      from rfl,
    show ({ s with beforeNext := none, afterNext := none } : Schedule).nextRun = s.nextRun
      from rfl] at h2
  exact h1.trans h2.symm

theorem windowStart_eq (u t : Int) :
    windowStart u t = t / nsPerDay * nsPerDay + clockNs u := by
  unfold windowStart
  rw [mkTime_on_day, clock_recompose]

theorem clockNs_bounds (u : Int) : 0 ≤ clockNs u ∧ clockNs u ≤ 86399999999999 := by
  dsimp only [clockNs, nsPerDay, nsPerHour, nsPerMin, nsPerSec]
  omega

theorem windowEnd_none_eq (s : Schedule) (t : Int) (h : s.endTime = none) :
    windowEnd s t = t / nsPerDay * nsPerDay + 86399999999999 := by
  unfold windowEnd
  rw [h, mkTime_on_day]
  norm_num [nsPerHour, nsPerMin, nsPerSec]

theorem windowEnd_some_eq (s : Schedule) (et t : Int) (h : s.endTime = some et) :
    windowEnd s t = t / nsPerDay * nsPerDay + clockNs et := by
  unfold windowEnd
  rw [h]
  exact windowStart_eq et t

theorem validate_interval (s : Schedule) (hv : validate s = none) : 1 ≤ s.interval := by
  by_contra h
  unfold validate at hv
  rw [if_pos (by omega)] at hv
  exact Option.noConfusion hv

theorem validate_window (s : Schedule) (st et : Int) (hv : validate s = none)
    (hst : s.startTime = some st) (het : s.endTime = some et) :
    secOfDay st < secOfDay et := by
  unfold validate at hv
  rw [hst, het] at hv
  dsimp only at hv
  split_ifs at hv with h1 h2
  omega

theorem secOfDay_clock_lt (u v : Int) (h : secOfDay u < secOfDay v) :
    clockNs u < clockNs v := by
  dsimp only [secOfDay, timeHour, timeMin, timeSec, clockNs, nsPerDay, nsPerHour, nsPerMin,
    nsPerSec] at h ⊢
  omega

/-- Under validation, today's window start is never after today's window
end (seconds-of-day comparison plus nanosecond bounds). -/
theorem window_order (s : Schedule) (st t : Int) (hv : validate s = none)
    (hst : s.startTime = some st) : windowStart st t ≤ windowEnd s t := by
  cases het : s.endTime with
  | none =>
    rw [windowStart_eq, windowEnd_none_eq s t het]
    have hb := clockNs_bounds st
    omega
  | some et =>
    rw [windowStart_eq, windowEnd_some_eq s et t het]
    have h := secOfDay_clock_lt st et (validate_window s st et hv hst het)
    omega

theorem nextCore_no_future (s : Schedule) (t : Int)
    (hsd : ∀ sd, s.startDate = some sd → sd ≤ t) : nextCore s t = nextAfter s t := by
  unfold nextCore
  cases hsdc : s.startDate with
  | none => rfl
  | some sd =>
    dsimp only
    rw [if_neg (by have := hsd sd hsdc; omega)]

/-- C6: in precision mode, on an allowed day with the query instant past
today's window end, `Next` projects directly to tomorrow's window start
(`todayStart + 24h`), with no weekday search applied. -/
theorem precision_past_end (s : Schedule) (t st : Int)
    (hv : validate s = none) (he : s.enabled = true) (hst : s.startTime = some st)
    (hc : s.nextRun ≤ t) (hsd : ∀ sd, s.startDate = some sd → sd ≤ t)
    (hall : isDayAllowed s t = true) (hp : s.precision = true)
    (hpast : windowEnd s t < t) :
    (Next s t).1 = windowStart st t + 24 * nsPerHour := by
  rw [next_fst, if_neg (by simp [he]), if_neg (by omega), nextCore_no_future s t hsd]
  unfold nextAfter
  rw [hst]
  unfold nextInWindow
  dsimp only
  rw [if_neg (by simp [hall]), if_pos hp,
    if_neg (by have := window_order s st t hv hst; omega : ¬ t < windowStart st t),
    if_pos hpast]

theorem precision_past_end_witness :
    (Next bizSched (mkTime 2024 3 11 17 30 0 0)).1 =
      windowStart (mkTime 2000 1 1 9 0 0 0) (mkTime 2024 3 11 17 30 0 0) + 24 * nsPerHour :=
  precision_past_end bizSched (mkTime 2024 3 11 17 30 0 0) (mkTime 2000 1 1 9 0 0 0)
    (by decide) (by decide) (by decide) (by decide)
    (by intro sd h; exact Option.noConfusion h) (by decide) (by decide) (by decide)

/-- C7: two window-boundary evaluations for the 09:00-17:00, 2-second,
precision-mode schedule: 16:59:59 lands on the next day's 09:00:00, and
10:30:00 lands on 10:30:02. -/
theorem window_boundary_values :
    validate bizSched = none ∧ bizSched.enabled = true ∧ bizSched.precision = true ∧
      bizSched.startTime = some (mkTime 2000 1 1 9 0 0 0) ∧
      bizSched.endTime = some (mkTime 2000 1 1 17 0 0 0) ∧
      bizSched.allowedWeekdays = none ∧ bizSched.startDate = none ∧
      (Next bizSched (mkTime 2024 3 11 16 59 59 0)).1 = mkTime 2024 3 12 9 0 0 0 ∧
      (Next bizSched (mkTime 2024 3 11 10 30 0 0)).1 = mkTime 2024 3 11 10 30 2 0 := by
  decide

/-- A validated schedule's interval step strictly advances any instant
(all seven units plus the defensive default). -/
theorem inc_strict (s : Schedule) (hv : validate s = none) (u : Int) :
    u < incrementInterval s u := by
  have hi := validate_interval s hv
  unfold incrementInterval
  split_ifs
  · dsimp only [nsPerSec]; omega
  · dsimp only [nsPerMin, nsPerSec]; omega
  · dsimp only [nsPerHour, nsPerMin, nsPerSec]; omega
  · rw [addDate_days]; omega
  · rw [addDate_days]; omega
  · exact addDate_months_pos u s.interval hi
  · exact addDate_years_pos u s.interval hi
  · dsimp only [nsPerMin, nsPerSec]; omega

theorem mkTime_on_day_add (t k h mi ss ns : Int) :
    mkTime (timeYear t) (timeMonth t) (timeDay t + k) h mi ss ns =
      t / nsPerDay * nsPerDay + k * nsPerDay +
        (h * nsPerHour + mi * nsPerMin + ss * nsPerSec + ns) := by
  unfold mkTime
  have hlin : dateToAbsDays (timeYear t) (timeMonth t) (timeDay t + k) =
      dateToAbsDays (timeYear t) (timeMonth t) (timeDay t) + k := by
    dsimp only [dateToAbsDays, dateToAbsDaysN]
    ring
  rw [hlin, components_roundtrip, absD]
  ring

theorem clockNs_add_day (c : Int) : clockNs (c + nsPerDay) = clockNs c := by
  dsimp only [clockNs, nsPerDay, nsPerHour, nsPerMin, nsPerSec]
  omega

theorem advanceDay_pt_eq (s : Schedule) (st c : Int) (hst : s.startTime = some st)
    (hc : clockNs c = clockNs st) : advanceDay s true c = c + nsPerDay := by
  unfold advanceDay
  rw [hst]
  dsimp only
  rw [mkTime_on_day_add c 1, clock_recompose, hc.symm]
  dsimp only [clockNs, nsPerDay, nsPerHour, nsPerMin, nsPerSec]
  omega

theorem retimeDay_pt_eq (s : Schedule) (st c : Int) (hst : s.startTime = some st)
    (hc : clockNs c = clockNs st) : retimeDay s true c = c := by
  unfold retimeDay
  rw [hst]
  dsimp only
  rw [show (mkTime (timeYear c) (timeMonth c) (timeDay c) (timeHour st) (timeMin st)
      (timeSec st) (timeNsec st) : Int) =
    mkTime (timeYear c) (timeMonth c) (timeDay c + 0) (timeHour st) (timeMin st)
      (timeSec st) (timeNsec st) by norm_num]
  rw [mkTime_on_day_add c 0, clock_recompose, hc.symm]
  dsimp only [clockNs, nsPerDay, nsPerHour, nsPerMin, nsPerSec]
  omega

theorem findAux_ge_pt (s : Schedule) (st : Int) (hst : s.startTime = some st) :
    ∀ fuel (c : Int), clockNs c = clockNs st →
      ∀ r, findNextAllowedDayAux s true fuel c = some r → c ≤ r := by
  intro fuel
  induction fuel with
  | zero => intro c _ r hr; exact Option.noConfusion hr
  | succ n ih =>
    intro c hc r hr
    rw [findNextAllowedDayAux] at hr
    by_cases hall : isDayAllowed s c = true
    · rw [if_pos hall] at hr
      have heq := retimeDay_pt_eq s st c hst hc
      have h2 := Option.some.inj hr
      omega
    · rw [if_neg hall] at hr
      rw [advanceDay_pt_eq s st c hst hc] at hr
      have h2 := ih (c + nsPerDay) (by rw [clockNs_add_day, hc]) r hr
      have hD : (0:Int) < nsPerDay := by decide
      omega

theorem find_ge_pt (s : Schedule) (st start : Int) (hst : s.startTime = some st)
    (hclock : clockNs start = clockNs st) :
    start ≤ findNextAllowedDay s start true := by
  unfold findNextAllowedDay
  cases haw : s.allowedWeekdays with
  | none => exact le_refl start
  | some w =>
    dsimp only
    cases hres : findNextAllowedDayAux s true 14 start with
    | none => simp [Option.getD]
    | some r =>
      simp only [Option.getD]
      exact findAux_ge_pt s st hst 14 start hclock r hres

theorem advanceDay_false_eq (s : Schedule) (c : Int) :
    advanceDay s false c = c + 24 * nsPerHour := by
  unfold advanceDay
  cases s.startTime <;> rfl

theorem retimeDay_false_eq (s : Schedule) (c : Int) : retimeDay s false c = c := by
  unfold retimeDay
  cases s.startTime <;> rfl

theorem findAux_ge_false (s : Schedule) :
    ∀ fuel (c : Int), ∀ r, findNextAllowedDayAux s false fuel c = some r → c ≤ r := by
  intro fuel
  induction fuel with
  | zero => intro c r hr; exact Option.noConfusion hr
  | succ n ih =>
    intro c r hr
    rw [findNextAllowedDayAux] at hr
    by_cases hall : isDayAllowed s c = true
    · rw [if_pos hall] at hr
      have heq := retimeDay_false_eq s c
      have h2 := Option.some.inj hr
      omega
    · rw [if_neg hall] at hr
      rw [advanceDay_false_eq s c] at hr
      have h2 := ih (c + 24 * nsPerHour) r hr
      have hD : (0:Int) < nsPerHour := by decide
      omega

theorem find_ge_false (s : Schedule) (start : Int) :
    start ≤ findNextAllowedDay s start false := by
  unfold findNextAllowedDay
  cases haw : s.allowedWeekdays with
  | none => exact le_refl start
  | some w =>
    dsimp only
    cases hres : findNextAllowedDayAux s false 14 start with
    | none => simp [Option.getD]
    | some r =>
      simp only [Option.getD]
      exact findAux_ge_false s 14 start r hres

theorem alignUp_ge (s : Schedule) (hv : validate s = none) (t : Int) (n : Int) :
    t ≤ alignUp s t n := by
  have H : ∀ k : Nat, ∀ m : Int, t - m ≤ k → t ≤ alignUp s t m := by
    intro k
    induction k with
    | zero =>
      intro m hm
      rw [alignUp.eq_def]
      split_ifs with h1 h2
      · exact absurd h1 (by omega)
      · exact absurd h1 (by omega)
      · omega
    | succ k ih =>
      intro m hm
      rw [alignUp.eq_def]
      split_ifs with h1 h2
      · have hs := inc_strict s hv m
        exact ih (incrementInterval s m) (by omega)
      · exact absurd (inc_strict s hv m) h2
      · omega
  exact H (t - n).toNat n (by omega)

theorem windowStart_sub (u t : Int) : windowStart u t = t - clockNs t + clockNs u := by
  rw [windowStart_eq]
  dsimp only [clockNs, nsPerDay, nsPerHour, nsPerMin, nsPerSec]
  omega

theorem clockNs_windowStart_day (st t : Int) :
    clockNs (windowStart st t + 24 * nsPerHour) = clockNs st := by
  rw [windowStart_eq]
  dsimp only [clockNs, nsPerDay, nsPerHour, nsPerMin, nsPerSec]
  omega

/-- C2 (amended): for a validated, enabled schedule with no applicable
cache and no future start date, `Next` never returns an instant before
`now`, and returns one strictly after `now` whenever precision mode is
on or no daily window is configured.  (The future-start-date branch and
the non-precision grid alignment are the two exceptions the
counterexample exhibits.) -/
theorem next_ge (s : Schedule) (t : Int) (hv : validate s = none) (he : s.enabled = true)
    (hc : s.nextRun ≤ t) (hsd : ∀ sd, s.startDate = some sd → sd ≤ t) :
    t ≤ (Next s t).1 ∧ ((s.precision = true ∨ s.startTime = none) → t < (Next s t).1) := by
  rw [next_fst, if_neg (by simp [he]), if_neg (by omega), nextCore_no_future s t hsd]
  unfold nextAfter
  cases hst : s.startTime with
  | none =>
    unfold nextNoWindow
    dsimp only
    have hstep := inc_strict s hv t
    have hfind := find_ge_false s (incrementInterval s t)
    constructor
    · split_ifs with hd
      · omega
      · omega
    · intro _
      split_ifs with hd
      · omega
      · omega
  | some st =>
    unfold nextInWindow
    dsimp only
    have hws := windowStart_sub st t
    have hcbst := clockNs_bounds st
    have hcbt := clockNs_bounds t
    have h24 : (24 : Int) * nsPerHour = 86400000000000 := by decide
    have hfindpt := find_ge_pt s st (windowStart st t + 24 * nsPerHour) hst
      (clockNs_windowStart_day st t)
    by_cases hall : isDayAllowed s t = true
    · rw [if_neg (by simp [hall])]
      by_cases hp : s.precision = true
      · rw [if_pos hp]
        by_cases h1 : t < windowStart st t
        · rw [if_pos h1]
          exact ⟨le_of_lt h1, fun _ => h1⟩
        · rw [if_neg h1]
          by_cases h2 : windowEnd s t < t
          · rw [if_pos h2]
            have hgt : t < windowStart st t + 24 * nsPerHour := by omega
            exact ⟨le_of_lt hgt, fun _ => hgt⟩
          · rw [if_neg h2]
            have hstep := inc_strict s hv t
            by_cases h3 : windowEnd s t < incrementInterval s t
            · rw [if_pos h3]
              have hgt : t < windowStart st t + 24 * nsPerHour := by omega
              exact ⟨by omega, fun _ => by omega⟩
            · rw [if_neg h3]
              exact ⟨le_of_lt hstep, fun _ => hstep⟩
      · rw [if_neg hp]
        have hal := alignUp_ge s hv t (windowStart st t)
        have hff := find_ge_false s (alignUp s t (windowStart st t))
        constructor
        · split_ifs with hd
          · omega
          · omega
        · intro hpre
          rcases hpre with hpre | hpre
          · exact absurd hpre hp
          · exact Option.noConfusion hpre
    · rw [if_pos hall]
      have hgt : t < windowStart st t + 24 * nsPerHour := by omega
      exact ⟨by omega, fun _ => by omega⟩

theorem next_ge_witness :
    (1710153000000000000 : Int) ≤ (Next bizSched 1710153000000000000).1 ∧
      ((bizSched.precision = true ∨ bizSched.startTime = none) →
        (1710153000000000000 : Int) < (Next bizSched 1710153000000000000).1) :=
  next_ge bizSched 1710153000000000000 (by decide) (by decide) (by decide)
    (by intro sd h; exact Option.noConfusion h)

/-- C2 (counterexample): the future-start-date branch returns
2025-03-15 02:00, which precedes the query 2025-03-15 10:00; and in
non-precision mode a query exactly on the window-start grid point is
returned unchanged — both under valid, enabled, cache-free
configurations. -/
theorem next_strictly_after_counterexample :
    validate startDateSched = none ∧ startDateSched.enabled = true ∧
      startDateSched.nextRun ≤ mkTime 2025 3 15 10 0 0 0 ∧
      (Next startDateSched (mkTime 2025 3 15 10 0 0 0)).1 < mkTime 2025 3 15 10 0 0 0 ∧
      validate npSched = none ∧ npSched.enabled = true ∧
      npSched.nextRun ≤ mkTime 2024 3 11 9 0 0 0 ∧
      (Next npSched (mkTime 2024 3 11 9 0 0 0)).1 = mkTime 2024 3 11 9 0 0 0 := by
  refine ⟨by decide, by decide, by decide, by decide, by decide, by decide, by decide, ?_⟩
  have hen : ¬((!npSched.enabled) = true) := by decide
  have hcach : ¬((mkTime 2024 3 11 9 0 0 0 : Int) < npSched.nextRun) := by decide
  rw [next_fst, if_neg hen, if_neg hcach,
    nextCore_no_future npSched _ (by intro sd h; exact Option.noConfusion h)]
  unfold nextAfter
  rw [show npSched.startTime = some (mkTime 2000 1 1 9 0 0 0) from by decide]
  dsimp only
  unfold nextInWindow
  dsimp only
  have hall : ¬¬(isDayAllowed npSched (mkTime 2024 3 11 9 0 0 0) = true) := by decide
  have hprec : ¬(npSched.precision = true) := by decide
  rw [if_neg hall, if_neg hprec]
  have hws : windowStart (mkTime 2000 1 1 9 0 0 0) (mkTime 2024 3 11 9 0 0 0) =
      mkTime 2024 3 11 9 0 0 0 := by decide
  rw [hws]
  have halign : alignUp npSched (mkTime 2024 3 11 9 0 0 0) (mkTime 2024 3 11 9 0 0 0) =
      mkTime 2024 3 11 9 0 0 0 := by
    rw [alignUp.eq_def]
    rw [dif_neg (show ¬((mkTime 2024 3 11 9 0 0 0 : Int) < mkTime 2024 3 11 9 0 0 0)
      from by decide)]
  rw [halign,
    if_neg (show ¬(timeDay (mkTime 2024 3 11 9 0 0 0) ≠
      timeDay (mkTime 2024 3 11 9 0 0 0)) from fun h => h rfl)]

theorem timeWeekday_bounds (c : Int) : 0 ≤ timeWeekday c ∧ timeWeekday c < 7 := by
  unfold timeWeekday
  omega

theorem advanceDay_dayOf (s : Schedule) (pt : Bool) (c : Int) :
    advanceDay s pt c / nsPerDay = c / nsPerDay + 1 := by
  cases pt with
  | false =>
    rw [advanceDay_false_eq]
    dsimp only [nsPerDay, nsPerHour, nsPerMin, nsPerSec]
    omega
  | true =>
    cases hst : s.startTime with
    | none =>
      unfold advanceDay
      rw [hst]
      dsimp only [nsPerDay, nsPerHour, nsPerMin, nsPerSec]
      omega
    | some st =>
      unfold advanceDay
      rw [hst]
      dsimp only
      rw [mkTime_on_day_add c 1, clock_recompose]
      have hb := clockNs_bounds st
      dsimp only [nsPerDay, nsPerHour, nsPerMin, nsPerSec]
      omega

theorem timeWeekday_advance (s : Schedule) (pt : Bool) (c : Int) :
    timeWeekday (advanceDay s pt c) = (timeWeekday c + 1) % 7 := by
  unfold timeWeekday
  rw [advanceDay_dayOf]
  omega

theorem timeWeekday_iterate (s : Schedule) (pt : Bool) (c : Int) :
    ∀ i : Nat, timeWeekday ((advanceDay s pt)^[i] c) = (timeWeekday c + (i : Int)) % 7 := by
  intro i
  induction i with
  | zero =>
    rw [Function.iterate_zero_apply]
    have := timeWeekday_bounds c
    omega
  | succ m ih =>
    rw [Function.iterate_succ_apply', timeWeekday_advance, ih]
    push_cast
    omega

theorem weekday_coverage (s : Schedule) (w : Finset (Fin 7)) (hw : s.allowedWeekdays = some w)
    (hne : w.Nonempty) (start : Int) (pt : Bool) :
    ∃ i : Nat, i < 7 ∧ isDayAllowed s ((advanceDay s pt)^[i] start) = true := by
  obtain ⟨v, hv⟩ := hne
  refine ⟨(((v.val : Int) - timeWeekday start) % 7).toNat, by omega, ?_⟩
  unfold isDayAllowed
  rw [hw]
  rw [decide_eq_true_eq]
  have hfin : weekdayFin ((advanceDay s pt)^[(((v.val : Int) - timeWeekday start) % 7).toNat]
      start) = v := by
    apply Fin.ext
    show (timeWeekday _).toNat = v.val
    rw [timeWeekday_iterate]
    have h1 := timeWeekday_bounds start
    have h2 := v.isLt
    omega
  rw [hfin]
  exact hv

theorem findAux_first (s : Schedule) (pt : Bool) :
    ∀ (fuel : Nat) (c : Int) (i : Nat), i < fuel →
      isDayAllowed s ((advanceDay s pt)^[i] c) = true →
      (∀ j : Nat, j < i → isDayAllowed s ((advanceDay s pt)^[j] c) = false) →
      findNextAllowedDayAux s pt fuel c =
        some (retimeDay s pt ((advanceDay s pt)^[i] c)) := by
  intro fuel
  induction fuel with
  | zero => intro c i hi _ _; exact absurd hi (Nat.not_lt_zero i)
  | succ n ih =>
    intro c i hi hall hmin
    rw [findNextAllowedDayAux]
    by_cases h0 : isDayAllowed s c = true
    · rw [if_pos h0]
      have hi0 : i = 0 := by
        by_contra hne
        have hj := hmin 0 (by omega)
        rw [Function.iterate_zero_apply] at hj
        rw [hj] at h0
        exact Bool.noConfusion h0
      subst hi0
      rw [Function.iterate_zero_apply]
    · rw [if_neg h0]
      cases i with
      | zero =>
        rw [Function.iterate_zero_apply] at hall
        exact absurd hall h0
      | succ m =>
        have h2 := ih (advanceDay s pt c) m (by omega)
          (by rw [← Function.iterate_succ_apply]; exact hall)
          (by
            intro j hj
            have hj2 := hmin (j + 1) (by omega)
            rw [Function.iterate_succ_apply] at hj2
            exact hj2)
        rw [h2, ← Function.iterate_succ_apply]

/-- C8: `findNextAllowedDay` is the identity without a restriction; with
a non-empty restriction the scan hits the first allowed candidate within
7 iterations (so the 14-iteration fallback is unreachable), returning it
through the `retimeDay` adjustment. -/
theorem findNextAllowedDay_spec (s : Schedule) (start : Int) (pt : Bool) :
    (s.allowedWeekdays = none → findNextAllowedDay s start pt = start) ∧
    (∀ w, s.allowedWeekdays = some w → w.Nonempty →
      ∃ i : Nat, i < 7 ∧ isDayAllowed s ((advanceDay s pt)^[i] start) = true ∧
        (∀ j : Nat, j < i → isDayAllowed s ((advanceDay s pt)^[j] start) = false) ∧
        findNextAllowedDay s start pt = retimeDay s pt ((advanceDay s pt)^[i] start)) := by
  constructor
  · intro hn
    unfold findNextAllowedDay
    rw [hn]
  · intro w hw hne
    have hP : ∃ i : Nat, isDayAllowed s ((advanceDay s pt)^[i] start) = true := by
      obtain ⟨i0, _, hM⟩ := weekday_coverage s w hw hne start pt
      exact ⟨i0, hM⟩
    obtain ⟨i0, hi0, hM⟩ := weekday_coverage s w hw hne start pt
    have hfind7 : Nat.find hP < 7 := lt_of_le_of_lt (Nat.find_le hM) hi0
    have hminS : ∀ j : Nat, j < Nat.find hP →
        isDayAllowed s ((advanceDay s pt)^[j] start) = false := by
      intro j hj
      have h3 := Nat.find_min hP hj
      exact Bool.eq_false_iff.mpr h3
    refine ⟨Nat.find hP, hfind7, Nat.find_spec hP, hminS, ?_⟩
    unfold findNextAllowedDay
    rw [hw]
    rw [findAux_first s pt 14 start (Nat.find hP) (by omega) (Nat.find_spec hP) hminS]
    rfl

theorem findNextAllowedDay_spec_witness :
    ∃ i : Nat, i < 7 ∧
      isDayAllowed bizSchedWd ((advanceDay bizSchedWd true)^[i] 1710064800000000000)
        = true ∧
      (∀ j : Nat, j < i →
        isDayAllowed bizSchedWd ((advanceDay bizSchedWd true)^[j] 1710064800000000000)
          = false) ∧
      findNextAllowedDay bizSchedWd 1710064800000000000 true =
        retimeDay bizSchedWd true
          ((advanceDay bizSchedWd true)^[i] 1710064800000000000) :=
  (findNextAllowedDay_spec bizSchedWd 1710064800000000000 true).2
    ({1, 2, 3, 4, 5} : Finset (Fin 7)) (by decide) (by decide)

end Rcs
